import Mathlib

/-!
Verification of the CONLL-U annotation pipeline
(`lab_6_pipeline/pipeline.py`, `lab_6_pipeline/pos_frequency_pipeline.py`).

The Python source is shallowly embedded: classes become structures, methods
become functions, the Mystem analyzer output becomes an explicit list of
records passed as input, fallible operations return `Option` or `Except`.
-/

/-! ## Character-level helpers

The source uses Python regexes over texts that are ASCII or Cyrillic.
`\w` (Unicode word character) is modelled for ASCII letters/digits/underscore
plus the basic Cyrillic block; `str.lower` likewise for ASCII plus Cyrillic.
-/

/-- Lowercase Cyrillic letters `а`–`я` (U+0430–U+044F), the exact range of the
regex `[а-я]` in `MystemTagConverter.convert_morphological_tags`. -/
def isCyrLower (c : Char) : Bool :=
  0x430 ≤ c.toNat && c.toNat ≤ 0x44F

/-- Uppercase Cyrillic letters `А`–`Я` (U+0410–U+042F). -/
def isCyrUpper (c : Char) : Bool :=
  0x410 ≤ c.toNat && c.toNat ≤ 0x42F

/-- Letters as far as the embedded texts need: ASCII letters, the basic
Cyrillic block, and `Ё`/`ё`. -/
def pyIsLetter (c : Char) : Bool :=
  c.isAlpha || isCyrLower c || isCyrUpper c || c.toNat == 0x401 || c.toNat == 0x451

/-- A character for which Python's `str.isalnum` is true (letter or digit). -/
def pyIsAlnumChar (c : Char) : Bool :=
  pyIsLetter c || c.isDigit

/-- A Python regex word character `\w` (letter, digit or underscore). -/
def pyIsWordChar (c : Char) : Bool :=
  pyIsAlnumChar c || c == '_'

/-- Python `str.lower` on one character (ASCII and basic Cyrillic). -/
def pyToLowerChar (c : Char) : Char :=
  if isCyrUpper c then Char.ofNat (c.toNat + 0x20)
  else if c.toNat == 0x401 then Char.ofNat 0x451
  else c.toLower

/-- Python `s.isalnum()`: nonempty and every character alphanumeric. -/
def pyIsAlnum (s : String) : Bool :=
  !s.data.isEmpty && s.data.all pyIsAlnumChar

/-- Python `s.isdigit()`: nonempty and every character a digit. -/
def pyIsDigit (s : String) : Bool :=
  !s.data.isEmpty && s.data.all Char.isDigit

/-- Right fold collecting runs of characters satisfying `p`: the head of the
accumulator is the run currently being extended; a non-`p` character closes
it by starting a fresh (possibly empty) run. -/
def findRunsAux (p : Char → Bool) (l : List Char) : List (List Char) :=
  l.foldr
    (fun c acc =>
      if p c then
        match acc with
        | [] => [[c]]
        | r :: rs => (c :: r) :: rs
      else [] :: acc)
    [[]]

/-- Maximal runs of characters satisfying `p`, i.e. `re.findall` for the
character-class-plus pattern (`\w+`, `[а-я]+`): the nonempty groups left by
`findRunsAux`. -/
def findRuns (p : Char → Bool) (l : List Char) : List (List Char) :=
  (findRunsAux p l).filter (fun r => !r.isEmpty)

/-- `re.findall(r'\w+', s)`: the list of maximal word-character runs. -/
def findWords (s : String) : List String :=
  (findRuns pyIsWordChar s.data).map List.asString

/-- `re.sub(r'\W+', '', s)`: drop every non-word character. -/
def stripNonWord (s : String) : String :=
  (s.data.filter pyIsWordChar).asString

/-- Python `s.lower()` (ASCII and basic Cyrillic). -/
def pyLower (s : String) : String :=
  (s.data.map pyToLowerChar).asString

/-! ## Token and sentence model (`pipeline.py`, classes
`MorphologicalTokenDTO`, `ConlluToken`, `ConlluSentence`) -/

/-- `MorphologicalTokenDTO(lemma="", pos="", tags="")`: the morphological
parameters of one token.  The Python attribute `lemma` is a Lean keyword and
is embedded as `lemma_`. -/
structure MorphologicalTokenDTO where
  lemma_ : String := ""
  pos : String := ""
  tags : String := ""
  deriving DecidableEq, Repr

/-- `ConlluToken(text, morphological_parameters, position)`: a CONLL-U token.
All three constructor arguments are required (no defaults). -/
structure ConlluToken where
  text : String
  morphological_parameters : MorphologicalTokenDTO
  position : Nat
  deriving DecidableEq, Repr

/-- `ConlluToken.get_cleaned`: `re.sub(r'\W+', '', self._text).lower()`. -/
def ConlluToken.get_cleaned (t : ConlluToken) : String :=
  pyLower (stripNonWord t.text)

/-- `ConlluToken.get_conllu_text(include_morphological_tags)`: the tab-joined
ten-column line.  `feats` is `'_'` unless the flag is set and the stored tag
string is truthy (nonempty). -/
def ConlluToken.get_conllu_text (t : ConlluToken)
    (include_morphological_tags : Bool) : String :=
  let position := toString t.position
  let text := t.text
  let lemma_ := t.morphological_parameters.lemma_
  let pos := t.morphological_parameters.pos
  let xpos := "_"
  let feats :=
    if include_morphological_tags then
      if t.morphological_parameters.tags ≠ "" then t.morphological_parameters.tags
      else "_"
    else "_"
  let head := "0"
  let deprel := "root"
  let deps := "_"
  let misc := "_"
  String.intercalate "\t"
    [position, text, lemma_, pos, xpos, feats, head, deprel, deps, misc]

/-- `ConlluSentence(position, text, tokens)`. -/
structure ConlluSentence where
  position : Nat
  text : String
  tokens : List ConlluToken
  deriving DecidableEq, Repr

/-- `ConlluSentence._format_tokens`: the two comment lines followed by one
line per token, accumulated with `+=`. -/
def ConlluSentence.format_tokens (s : ConlluSentence)
    (include_morphological_tags : Bool) : String :=
  s.tokens.foldl
    (fun res token => res ++ token.get_conllu_text include_morphological_tags ++ "\n")
    ("# sent_id = " ++ toString s.position ++ "\n# text = " ++ s.text ++ "\n")

/-- `ConlluSentence.get_conllu_text`. -/
def ConlluSentence.get_conllu_text (s : ConlluSentence)
    (include_morphological_tags : Bool) : String :=
  s.format_tokens include_morphological_tags

/-- `ConlluSentence.get_cleaned_sentence`:
`' '.join(token.get_cleaned() for token in self._tokens)`. -/
def ConlluSentence.get_cleaned_sentence (s : ConlluSentence) : String :=
  String.intercalate " " (s.tokens.map ConlluToken.get_cleaned)

/-! ## Tag converters (`MystemTagConverter`, `OpenCorporaTagConverter`)

The `TagConverter` base class and the JSON tag-mapping file live outside
`src/` (`core_utils.article.ud`, `data/mystem_tags_mapping.json`), so the
mapping is a parameter `tag_mapping : String → String → Option String`
(category name → raw tag → UD value, `none` when the key is absent).
-/

/-- Modelled from the spec: the category-name constants exposed by the
`TagConverter` base class (`core_utils.article.ud`, not under `src/`).  The
spec names the semantic categories case, number, gender, animacy, tense and
shows `Category=Value` output such as `Gender=Neut|Number=Sing|Tense=Past`. -/
def caseCategory : String := "Case"

/-- Modelled from the spec: see `caseCategory`. -/
def numberCategory : String := "Number"

/-- Modelled from the spec: see `caseCategory`. -/
def genderCategory : String := "Gender"

/-- Modelled from the spec: see `caseCategory`. -/
def animacyCategory : String := "Animacy"

/-- Modelled from the spec: see `caseCategory`. -/
def tenseCategory : String := "Tense"

/-- Python `d[k] = v` on a dict kept as an insertion-ordered association
list: overwrite in place if the key exists, else append. -/
def pyDictAssign (d : List (String × String)) (k v : String) :
    List (String × String) :=
  if d.any (fun p => p.1 == k) then
    d.map (fun p => if p.1 == k then (k, v) else p)
  else d ++ [(k, v)]

/-- The category tuple `(self.case, self.number, self.gender, self.animacy,
self.tense)` iterated by `MystemTagConverter.convert_morphological_tags`. -/
def mystemCategories : List String :=
  [caseCategory, numberCategory, genderCategory, animacyCategory, tenseCategory]

/-- The `ud_tags` dict built by `MystemTagConverter.convert_morphological_tags`:
for each extracted Cyrillic run, for each category, assign the mapped value
when the raw tag is a key of that category's mapping. -/
def MystemTagConverter.ud_tags (tag_mapping : String → String → Option String)
    (tags : String) : List (String × String) :=
  let extracted_tags := (findRuns isCyrLower tags.data).map List.asString
  extracted_tags.foldl
    (fun d tag =>
      mystemCategories.foldl
        (fun d category =>
          match tag_mapping category tag with
          | some v => pyDictAssign d category v
          | none => d)
        d)
    []

/-- The key order used by Python's `sorted` on dict items (keys are distinct
in a dict, so only the key part decides). -/
def keyLe (p q : String × String) : Prop := p.1 ≤ q.1

instance : DecidableRel keyLe := fun p q => inferInstanceAs (Decidable (p.1 ≤ q.1))

instance : IsTotal (String × String) keyLe := ⟨fun a b => le_total a.1 b.1⟩

instance : IsTrans (String × String) keyLe := ⟨fun _ _ _ => le_trans⟩

/-- `sorted(ud_tags.items())` for a dict (distinct keys). -/
def sortedPairs (l : List (String × String)) : List (String × String) :=
  List.insertionSort keyLe l

/-- The f-string `f'{k}={v}'` for one pair. -/
def formatPair (p : String × String) : String := p.1 ++ "=" ++ p.2

/-- `MystemTagConverter.convert_morphological_tags`:
`'|'.join(f'{k}={v}' for k, v in sorted(ud_tags.items()))`. -/
def MystemTagConverter.convert_morphological_tags
    (tag_mapping : String → String → Option String) (tags : String) : String :=
  String.intercalate "|"
    ((sortedPairs (MystemTagConverter.ud_tags tag_mapping tags)).map formatPair)

/-- The structured OpenCorpora tag object (`OpencorporaTagProtocol`): named
fields that are `None` or a raw value.  The Python field `case` is a Lean
keyword and is embedded as `case_`. -/
structure OpencorporaTag where
  POS : Option String := none
  gender : Option String := none
  number : Option String := none
  animacy : Option String := none
  case_ : Option String := none
  deriving DecidableEq, Repr

/-- One iteration of the loop in
`OpenCorporaTagConverter.convert_morphological_tags`: skip a `None` field,
otherwise look the value up (`self._tag_mapping[k][v]`, a `KeyError` —
modelled `none` — when absent) and assign it into the dict. -/
def ocStep (tag_mapping : String → String → Option String)
    (d : List (String × String)) (kv : String × Option String) :
    Option (List (String × String)) :=
  match kv.2 with
  | none => some d
  | some v => (tag_mapping kv.1 v).map (fun u => pyDictAssign d kv.1 u)

/-- The `ud_tags` dict built by
`OpenCorporaTagConverter.convert_morphological_tags` from the field list
`[[gender, …], [number, …], [animacy, …], [case, …]]`, in that order. -/
def OpenCorporaTagConverter.ud_tags
    (tag_mapping : String → String → Option String) (tags : OpencorporaTag) :
    Option (List (String × String)) :=
  [(genderCategory, tags.gender), (numberCategory, tags.number),
   (animacyCategory, tags.animacy), (caseCategory, tags.case_)].foldlM
    (ocStep tag_mapping) []

/-- `OpenCorporaTagConverter.convert_morphological_tags`:
`'|'.join(f'{k}={v}' for k, v in ud_tags.items())` — no sorting. -/
def OpenCorporaTagConverter.convert_morphological_tags
    (tag_mapping : String → String → Option String) (tags : OpencorporaTag) :
    Option String :=
  (OpenCorporaTagConverter.ud_tags tag_mapping tags).map
    (fun ud_tags => String.intercalate "|" (ud_tags.map formatPair))

/-! ## Alignment engine (`MorphologicalAnalysisPipeline._process`)

`result = self._analyzer.analyze(re.sub(r'\W+', ' ', text))` is the external
Mystem call and `split_by_sentence(text)` is from `core_utils`, so the record
stream and the sentence list are inputs.  The converter methods used on a
candidate's raw tag are parameters `convertPos convertTags : String → String`
(their mapping data lives outside `src/`).  Indexing `result[number_of_word]`
can raise `IndexError`, so the engine returns `Option`.
-/

/-- One Mystem analysis candidate: `{'lex': …, 'gr': …}`. -/
structure MystemAnalysis where
  lex : String
  gr : String
  deriving DecidableEq, Repr

/-- One record of the flat Mystem stream: `{'text': …}` with an optional
`'analysis'` key (`none` when the key is missing, `some []` when present but
empty — both falsy in `'analysis' in r and r['analysis']`). -/
structure MystemRecord where
  text : String
  analysis : Option (List MystemAnalysis) := none
  deriving DecidableEq, Repr

/-- The inner loop of `_process` over the words of one sentence
(`re.findall(r'\w+', sentence)`), starting at word position `i` and analyzer
cursor `number_of_word`; returns the tokens and the final cursor. -/
def processWords (convertPos convertTags : String → String)
    (result : List MystemRecord) :
    List String → Nat → Nat → Option (List ConlluToken × Nat)
  | [], _, number_of_word => some ([], number_of_word)
  | _word :: words, i, number_of_word => do
    let atCursor ← result.get? number_of_word
    let cursor := if pyIsAlnum atCursor.text then number_of_word
                  else number_of_word + 1
    let analyzed_content ← result.get? cursor
    let params : MorphologicalTokenDTO :=
      match analyzed_content.analysis with
      | some (first :: _) =>
        MorphologicalTokenDTO.mk first.lex (convertPos first.gr) (convertTags first.gr)
      | _ =>
        if pyIsDigit analyzed_content.text then
          MorphologicalTokenDTO.mk analyzed_content.text "NUM" ""
        else
          MorphologicalTokenDTO.mk analyzed_content.text "X" ""
    let rest ← processWords convertPos convertTags result words (i + 1) (cursor + 1)
    some (ConlluToken.mk analyzed_content.text params i :: rest.1, rest.2)

/-- The outer loop of `_process` over `split_by_sentence(text)` with 1-based
sentence index `ind`; the analyzer cursor is threaded through, never reset. -/
def processSentences (convertPos convertTags : String → String)
    (result : List MystemRecord) :
    List String → Nat → Nat → Option (List ConlluSentence × Nat)
  | [], _, number_of_word => some ([], number_of_word)
  | sentence :: rest, ind, number_of_word => do
    let words := findWords sentence
    let wr ← processWords convertPos convertTags result words 1 number_of_word
    let tokens := wr.1 ++
      [ConlluToken.mk "." (MorphologicalTokenDTO.mk "." "PUNCT" "") (words.length + 1)]
    let sr ← processSentences convertPos convertTags result rest (ind + 1) wr.2
    some (ConlluSentence.mk ind sentence tokens :: sr.1, sr.2)

/-- `MorphologicalAnalysisPipeline._process`: sentence index starts at 1,
the analyzer cursor `number_of_word` at 0. -/
def MorphologicalAnalysisPipeline.process
    (convertPos convertTags : String → String) (result : List MystemRecord)
    (sentences : List String) : Option (List ConlluSentence) :=
  (processSentences convertPos convertTags result sentences 1 0).map Prod.fst

/-- The sequence of analyzer-stream indices consumed as word analyses by the
inner loop of `_process`, together with the final cursor (a verification
instrument mirroring `processWords`). -/
def cursorTrace (result : List MystemRecord) :
    List String → Nat → Option (List Nat × Nat)
  | [], number_of_word => some ([], number_of_word)
  | _word :: words, number_of_word => do
    let atCursor ← result.get? number_of_word
    let cursor := if pyIsAlnum atCursor.text then number_of_word
                  else number_of_word + 1
    let _ ← result.get? cursor
    let rest ← cursorTrace result words (cursor + 1)
    some (cursor :: rest.1, rest.2)

/-- The consumed-index sequence of the whole `_process` run, concatenated
across sentences in order. -/
def sentencesTrace (result : List MystemRecord) :
    List String → Nat → Option (List Nat × Nat)
  | [], number_of_word => some ([], number_of_word)
  | sentence :: rest, number_of_word => do
    let tr ← cursorTrace result (findWords sentence) number_of_word
    let trs ← sentencesTrace result rest tr.2
    some (tr.1 ++ trs.1, trs.2)

/-! ## CONLL-U parsing (`pos_frequency_pipeline.py`) -/

/-- The call `ConlluToken(text)` in `_parse_conllu_token`:
`ConlluToken.__init__(self, text, morphological_parameters, position)` has no
default values, so supplying only `text` raises `TypeError`; the failing call
is modelled as `none`. -/
def conlluTokenFromTextOnly (_text : String) : Option ConlluToken := none

/-- `_parse_conllu_token(token_line)`: split the line on tabs into
`position, text, lemma, pos, xpos, feats, *args` (a `ValueError` — `none` —
when there are fewer than six columns), then rebuild the token.  The
constructor call `ConlluToken(text)` raises `TypeError`, and the subsequent
`set_position` does not exist on `ConlluToken`; the tail after the failing
call is unreachable in the source. -/
def _parse_conllu_token (token_line : String) : Option ConlluToken :=
  match token_line.splitOn "\t" with
  | _position :: text :: lemma_col :: pos_col :: _xpos :: feats :: _args =>
    match conlluTokenFromTextOnly text with
    | none => none
    | some conllu_token =>
      some { conllu_token with
             morphological_parameters :=
               MorphologicalTokenDTO.mk lemma_col pos_col
                 (if feats ≠ "_" then feats else "") }
  | _ => none

/-! ## Corpus manager validation (`CorpusManager._validate_dataset`)

The filesystem is abstracted to a directory snapshot: existence and
directory flags, the glob results for `*_meta.json` and `*_raw.txt`
(raw files carry their `st_size`).
-/

/-- A `*_raw.txt` glob entry with its byte size. -/
structure RawFile where
  name : String
  size : Nat
  deriving DecidableEq, Repr

/-- A directory snapshot as `_validate_dataset` observes it. -/
structure DatasetDir where
  present : Bool
  is_dir : Bool
  meta_files : List String
  raw_files : List RawFile
  deriving Repr

/-- The distinct conditions `_validate_dataset` can raise. -/
inductive DatasetError where
  | fileNotFoundError (msg : String)
  | notADirectoryError (msg : String)
  | inconsistentDatasetError (msg : String)
  | emptyDirectoryError (msg : String)
  | valueError
  deriving DecidableEq, Repr

/-- `int(file.name.split("_")[0])`: the integer id before the first
underscore — `name.split("_")[0]` is the character run before the first `_`
(the whole name if there is none) — with `none` on a non-numeric prefix
(a `ValueError` in the source). -/
def fileIdOf (name : String) : Option Nat :=
  let head := name.data.takeWhile (fun c => c != '_')
  if head ≠ [] ∧ head.all Char.isDigit then
    some (head.foldl (fun n c => 10 * n + (c.toNat - 48)) 0)
  else none

/-- `CorpusManager._validate_dataset`, in source order: existence, directory,
meta/raw count equality, emptiness, duplicate ids, zero-length files.  Each
`raise` ends the method, so the sequential checks are nested conditionals. -/
def CorpusManager.validate_dataset (d : DatasetDir) :
    Except DatasetError Unit :=
  if d.present = false then
    Except.error (DatasetError.fileNotFoundError "There are no such files")
  else if d.is_dir = false then
    Except.error (DatasetError.notADirectoryError "Path does not lead to directory")
  else if d.meta_files.length ≠ d.raw_files.length then
    Except.error (DatasetError.inconsistentDatasetError
      "Number of meta and raw files are not equal")
  else if d.meta_files.isEmpty || d.raw_files.isEmpty then
    Except.error (DatasetError.emptyDirectoryError "The directory is empty")
  else
    match d.raw_files.mapM (fun f => fileIdOf f.name) with
    | none => Except.error DatasetError.valueError
    | some file_ids =>
      if file_ids.length ≠ file_ids.eraseDups.length then
        Except.error (DatasetError.inconsistentDatasetError "IDs contain duplicates")
      else if (d.raw_files.filter (fun f => f.size == 0)).isEmpty = false then
        Except.error (DatasetError.inconsistentDatasetError "Files are empty")
      else Except.ok ()

/-- `CorpusManager.__init__`: validation runs before `_scan_dataset`, so a
failed validation yields the error and no document is ever read; on success
the storage maps each raw file's id to its name. -/
def CorpusManager.init (d : DatasetDir) :
    Except DatasetError (List (Nat × String)) :=
  match CorpusManager.validate_dataset d with
  | Except.error e => Except.error e
  | Except.ok _ =>
    Except.ok (d.raw_files.filterMap
      (fun f => (fileIdOf f.name).map (fun n => (n, f.name))))

/-! ## Definitions following the spec's words

These are the spec side of the refinement claims; each is written from the
specification text, to be compared with the source-derived functions above.
-/

/-- Spec, cleaned-text renderer: join a list of already-cleaned token texts
with a single space between consecutive entries. -/
def specSpaceJoin : List String → String
  | [] => ""
  | [x] => x
  | x :: y :: xs => x ++ " " ++ specSpaceJoin (y :: xs)

/-- Spec §4.3 step 3, the three-tier annotation policy: (a) first analysis
candidate's lemma and raw tag, converted; (b) else a purely numeric text gets
`NUM` with itself as lemma and empty features; (c) else `X`. -/
def specResolvePolicy (convertPos convertTags : String → String)
    (r : MystemRecord) : MorphologicalTokenDTO :=
  match r.analysis with
  | some (first :: _) =>
    MorphologicalTokenDTO.mk first.lex (convertPos first.gr) (convertTags first.gr)
  | _ =>
    if pyIsDigit r.text then MorphologicalTokenDTO.mk r.text "NUM" ""
    else MorphologicalTokenDTO.mk r.text "X" ""

/-- Spec §4.4: the features column is `"_"` whenever `include_features` is
false, regardless of stored features, and also `"_"` when it is true but the
stored tag string is empty. -/
def specFeatsColumn (include_features : Bool) (tags : String) : String :=
  if include_features = false then "_"
  else if tags = "" then "_"
  else tags

/-- Spec §4.4: one tab-joined ten-column token line
`(position, surface_text, lemma, part_of_speech, "_", features-or-"_", "0",
"root", "_", "_")`. -/
def specTokenLine (t : ConlluToken) (include_features : Bool) : String :=
  String.intercalate "\t"
    [toString t.position, t.text, t.morphological_parameters.lemma_,
     t.morphological_parameters.pos, "_",
     specFeatsColumn include_features t.morphological_parameters.tags,
     "0", "root", "_", "_"]

/-- Spec §4.4/§6: a sentence block is the `# sent_id = N` comment line, the
`# text = …` comment line, then one token line per token, each line
newline-terminated. -/
def specSentenceBlock (s : ConlluSentence) (include_features : Bool) : String :=
  "# sent_id = " ++ toString s.position ++ "\n" ++
  "# text = " ++ s.text ++ "\n" ++
  String.join (s.tokens.map (fun t => specTokenLine t include_features ++ "\n"))

/-- Spec §4.3: the synthetic terminal token appended after the last real word
of a sentence with `n` real words. -/
def specTerminalToken (n : Nat) : ConlluToken :=
  ConlluToken.mk "." (MorphologicalTokenDTO.mk "." "PUNCT" "") (n + 1)

/-! ## Theorems -/

theorem intercalate_go_eq (as : List String) :
    ∀ acc, String.intercalate.go acc " " as = specSpaceJoin (acc :: as) := by
  induction as with
  | nil => intro acc; rfl
  | cons a as ih =>
    intro acc
    show String.intercalate.go (acc ++ " " ++ a) " " as = _
    rw [ih]
    cases as with
    | nil => simp [specSpaceJoin]
    | cons b bs => simp [specSpaceJoin, String.append_assoc]

theorem intercalate_space_eq_specSpaceJoin :
    ∀ l : List String, String.intercalate " " l = specSpaceJoin l
  | [] => rfl
  | a :: as => intercalate_go_eq as a

/-- Claim C1, counterexample: the cleaned-text renderer does not drop tokens
that become empty after stripping.  On the spec's own example tokens
`["Привет,", "мир", "!"]` it renders `"привет мир "` — with a trailing
separator contributed by the punctuation-only token — and not
`"привет мир"` as the claim states. -/
theorem get_cleaned_sentence_trailing_space :
    ConlluSentence.get_cleaned_sentence
      (ConlluSentence.mk 1 "Привет, мир!"
        [ConlluToken.mk "Привет," (MorphologicalTokenDTO.mk "привет" "X" "") 1,
         ConlluToken.mk "мир" (MorphologicalTokenDTO.mk "мир" "X" "") 2,
         ConlluToken.mk "!" (MorphologicalTokenDTO.mk "!" "X" "") 3])
      = "привет мир " ∧
    ("привет мир " : String) ≠ "привет мир" := by
  constructor
  · decide
  · decide

/-- Claim C1 (amended): for every sentence the cleaned-text renderer strips
all non-word characters from each token's surface text, lowercases it, and
joins the cleaned forms of ALL tokens with a single space between consecutive
tokens — without dropping the ones that became empty, so a punctuation-only
token contributes an empty entry and leaves a separator artifact; in
particular `["Привет,", "мир", "!"]` renders `"привет мир "` with a trailing
space. -/
theorem get_cleaned_sentence_joins_all :
    (∀ s : ConlluSentence,
      s.get_cleaned_sentence =
        specSpaceJoin (s.tokens.map (fun t => pyLower (stripNonWord t.text)))) ∧
    ConlluSentence.get_cleaned_sentence
      (ConlluSentence.mk 1 "Привет, мир!"
        [ConlluToken.mk "Привет," (MorphologicalTokenDTO.mk "привет" "X" "") 1,
         ConlluToken.mk "мир" (MorphologicalTokenDTO.mk "мир" "X" "") 2,
         ConlluToken.mk "!" (MorphologicalTokenDTO.mk "!" "X" "") 3])
      = "привет мир " := by
  constructor
  · intro s
    rw [ConlluSentence.get_cleaned_sentence, intercalate_space_eq_specSpaceJoin]
    rfl
  · decide

theorem foldl_append_init (l : List String) :
    ∀ init, l.foldl (fun r s => r ++ s) init
      = init ++ l.foldl (fun r s => r ++ s) "" := by
  induction l with
  | nil => intro init; simp
  | cons a as ih =>
    intro init
    simp only [List.foldl_cons]
    rw [ih ("" ++ a), ih (init ++ a), String.empty_append, String.append_assoc]

theorem join_cons (a : String) (as : List String) :
    String.join (a :: as) = a ++ String.join as := by
  simp only [String.join, List.foldl_cons]
  rw [String.empty_append]
  exact foldl_append_init as a

theorem format_foldl (g : ConlluToken → String) (l : List ConlluToken) :
    ∀ init, l.foldl (fun res t => res ++ g t ++ "\n") init
      = init ++ String.join (l.map (fun t => g t ++ "\n")) := by
  induction l with
  | nil => intro init; simp [String.join]
  | cons t ts ih =>
    intro init
    simp only [List.foldl_cons, List.map_cons]
    rw [ih, join_cons]
    simp [String.append_assoc]

theorem get_conllu_text_eq_specTokenLine (t : ConlluToken) (flag : Bool) :
    t.get_conllu_text flag = specTokenLine t flag := by
  unfold ConlluToken.get_conllu_text specTokenLine specFeatsColumn
  cases flag <;>
    by_cases h : t.morphological_parameters.tags = "" <;>
    simp [h]

/-- Claim C7: for every sentence, the tabular renderer emits a
`# sent_id = N` comment line with the sentence's 1-based position, a
`# text = …` comment line with its raw text, then per token one tab-joined
ten-column line `(position, text, lemma, pos, "_", features, "0", "root",
"_", "_")`, where the features column is `"_"` whenever
`include_morphological_tags` is false regardless of stored features, and also
`"_"` when it is true but the stored tag string is empty. -/
theorem get_conllu_text_renders_spec_block (s : ConlluSentence) (flag : Bool) :
    s.get_conllu_text flag = specSentenceBlock s flag := by
  unfold ConlluSentence.get_conllu_text ConlluSentence.format_tokens specSentenceBlock
  rw [format_foldl]
  have hlit : ("\n# text = " : String) = "\n" ++ "# text = " := by decide
  have hfun : (fun t => ConlluToken.get_conllu_text t flag ++ "\n")
      = (fun t => specTokenLine t flag ++ "\n") := by
    funext t
    rw [get_conllu_text_eq_specTokenLine]
  rw [hfun, hlit]
  simp [String.append_assoc]

theorem parse_conllu_token_eq_none (token_line : String) :
    _parse_conllu_token token_line = none := by
  unfold _parse_conllu_token
  split
  · rfl
  · rfl

/-- Claim C5: the round trip cannot hold on this code.  `_parse_conllu_token`
calls `ConlluToken(text)` with one argument while `ConlluToken.__init__`
requires `text`, `morphological_parameters` and `position` (a `TypeError`),
and then calls `set_position`, which `ConlluToken` does not define; parsing
therefore fails on every line — in particular on every line produced by the
tabular renderer — instead of reproducing positions, texts, lemmas and
part-of-speech codes. -/
theorem parse_of_rendered_token_fails (t : ConlluToken) (flag : Bool) :
    _parse_conllu_token (t.get_conllu_text flag) = none :=
  parse_conllu_token_eq_none (t.get_conllu_text flag)

/-- Claim C9: dataset validation fails with a distinct named condition for
each violated invariant, and it runs before any document is read (a failing
validation makes `CorpusManager.__init__` fail with the same condition, so
`_scan_dataset` never runs).  With the directory present and a directory: a
meta/raw count mismatch raises `InconsistentDatasetError`; a directory with
no meta and no raw files raises `EmptyDirectoryError`; equal counts with two
raw files sharing an integer id raise the duplicate-id
`InconsistentDatasetError`. -/
theorem validate_dataset_distinct_conditions (d : DatasetDir)
    (hp : d.present = true) (hd : d.is_dir = true) :
    (d.meta_files.length ≠ d.raw_files.length →
      CorpusManager.validate_dataset d =
        Except.error (DatasetError.inconsistentDatasetError
          "Number of meta and raw files are not equal")) ∧
    (d.meta_files = [] → d.raw_files = [] →
      CorpusManager.validate_dataset d =
        Except.error (DatasetError.emptyDirectoryError "The directory is empty")) ∧
    (∀ file_ids, d.meta_files.length = d.raw_files.length →
      d.raw_files ≠ [] →
      d.raw_files.mapM (fun f => fileIdOf f.name) = some file_ids →
      file_ids.length ≠ file_ids.eraseDups.length →
      CorpusManager.validate_dataset d =
        Except.error (DatasetError.inconsistentDatasetError "IDs contain duplicates")) ∧
    (∀ e, CorpusManager.validate_dataset d = Except.error e →
      CorpusManager.init d = Except.error e) := by
  refine ⟨?_, ?_, ?_, ?_⟩
  · intro hne
    simp [CorpusManager.validate_dataset, hp, hd, hne]
  · intro hm hr
    simp [CorpusManager.validate_dataset, hp, hd, hm, hr]
  · intro ids hlen hraw hmap hdup
    have hmeta : d.meta_files ≠ [] := by
      intro h0
      apply hraw
      have : d.raw_files.length = 0 := by
        rw [← hlen, h0]
        rfl
      exact List.length_eq_zero.mp this
    have hmap2 : List.mapM.loop (fun f => fileIdOf f.name) d.raw_files []
        = some ids := hmap
    simp [CorpusManager.validate_dataset, hp, hd, hlen, List.isEmpty_iff,
      hraw, hmeta, hmap2, hdup]
  · intro e he
    simp [CorpusManager.init, he]

/-- Witness for claim C9: concrete directories — 3 raw files against 2 meta
files; a directory with no files; two raw files both carrying id 5. -/
theorem validate_dataset_distinct_conditions_witness :
    CorpusManager.validate_dataset
      (DatasetDir.mk true true ["1_meta.json", "2_meta.json"]
        [RawFile.mk "1_raw.txt" 7, RawFile.mk "2_raw.txt" 7, RawFile.mk "3_raw.txt" 7])
      = Except.error (DatasetError.inconsistentDatasetError
          "Number of meta and raw files are not equal") ∧
    CorpusManager.validate_dataset (DatasetDir.mk true true [] [])
      = Except.error (DatasetError.emptyDirectoryError "The directory is empty") ∧
    CorpusManager.validate_dataset
      (DatasetDir.mk true true ["5_meta.json", "6_meta.json"]
        [RawFile.mk "5_raw.txt" 3, RawFile.mk "5_extra_raw.txt" 4])
      = Except.error (DatasetError.inconsistentDatasetError "IDs contain duplicates") :=
  ⟨(validate_dataset_distinct_conditions _ rfl rfl).1 (by decide),
   (validate_dataset_distinct_conditions _ rfl rfl).2.1 rfl rfl,
   (validate_dataset_distinct_conditions _ rfl rfl).2.2.1 [5, 5] (by decide)
     (by decide) (by decide) (by decide)⟩

theorem processWords_nil (cp ct : String → String) (result : List MystemRecord)
    (i c : Nat) : processWords cp ct result [] i c = some ([], c) := rfl

theorem processWords_cons (cp ct : String → String) (result : List MystemRecord)
    (w : String) (ws : List String) (i c : Nat) :
    processWords cp ct result (w :: ws) i c =
      (result.get? c).bind (fun atCursor =>
        let cursor := if pyIsAlnum atCursor.text then c else c + 1
        (result.get? cursor).bind (fun analyzed_content =>
          (processWords cp ct result ws (i + 1) (cursor + 1)).bind (fun rest =>
            some (ConlluToken.mk analyzed_content.text
                    (specResolvePolicy cp ct analyzed_content) i :: rest.1,
                  rest.2)))) := rfl

/-- Claim C4: every token produced by the word loop of `_process` is
annotated by the three-tier priority policy applied to the analyzer record
consumed for it: first analysis candidate's lemma and raw tag (converted),
else NUM with the record's text as lemma when that text is purely numeric,
else X with the record's text as lemma — with empty features in both
fallback tiers. -/
theorem process_words_policy (cp ct : String → String)
    (result : List MystemRecord) :
    ∀ (ws : List String) (i c : Nat) (toks : List ConlluToken) (cfin : Nat),
      processWords cp ct result ws i c = some (toks, cfin) →
      ∀ t ∈ toks, ∃ j ac, result.get? j = some ac ∧
        t.text = ac.text ∧
        t.morphological_parameters = specResolvePolicy cp ct ac := by
  intro ws
  induction ws with
  | nil =>
    intro i c toks cfin h t ht
    rw [processWords_nil] at h
    cases h
    cases ht
  | cons w ws ih =>
    intro i c toks cfin h t ht
    rw [processWords_cons] at h
    cases h0 : result.get? c with
    | none => rw [h0] at h; cases h
    | some r0 =>
      rw [h0] at h
      simp only [Option.some_bind] at h
      set c1 := if pyIsAlnum r0.text then c else c + 1 with hc1
      cases h1 : result.get? c1 with
      | none => rw [h1] at h; cases h
      | some ac =>
        rw [h1] at h
        simp only [Option.some_bind] at h
        cases h2 : processWords cp ct result ws (i + 1) (c1 + 1) with
        | none => rw [h2] at h; cases h
        | some pr =>
          rw [h2] at h
          simp only [Option.some_bind, Option.some_inj] at h
          injection h with h3 h4
          subst h3
          rcases List.mem_cons.mp ht with rfl | htail
          · exact ⟨c1, ac, h1, rfl, rfl⟩
          · exact ih (i + 1) (c1 + 1) pr.1 pr.2 (by rw [h2]) t htail

/-- Witness for claim C4: a record stream with a candidate-less numeric
record `"42"` and a candidate-less non-numeric record `"qwzx"`; the run
produces NUM/lemma `"42"` and X/lemma `"qwzx"`, and both tokens satisfy the
policy relative to their consumed records. -/
theorem process_words_policy_witness :
    processWords (fun _ => "") (fun _ => "")
      [MystemRecord.mk "42" none, MystemRecord.mk "qwzx" (some [])]
      ["a", "b"] 1 0 =
      some ([ConlluToken.mk "42" (MorphologicalTokenDTO.mk "42" "NUM" "") 1,
             ConlluToken.mk "qwzx" (MorphologicalTokenDTO.mk "qwzx" "X" "") 2], 2) ∧
    (∃ j ac,
      [MystemRecord.mk "42" none, MystemRecord.mk "qwzx" (some [])].get? j
          = some ac ∧
      (ConlluToken.mk "42" (MorphologicalTokenDTO.mk "42" "NUM" "") 1).text
          = ac.text ∧
      (ConlluToken.mk "42" (MorphologicalTokenDTO.mk "42" "NUM" "") 1).morphological_parameters
          = specResolvePolicy (fun _ => "") (fun _ => "") ac) ∧
    (∃ j ac,
      [MystemRecord.mk "42" none, MystemRecord.mk "qwzx" (some [])].get? j
          = some ac ∧
      (ConlluToken.mk "qwzx" (MorphologicalTokenDTO.mk "qwzx" "X" "") 2).text
          = ac.text ∧
      (ConlluToken.mk "qwzx" (MorphologicalTokenDTO.mk "qwzx" "X" "") 2).morphological_parameters
          = specResolvePolicy (fun _ => "") (fun _ => "") ac) :=
  ⟨by decide,
   process_words_policy (fun _ => "") (fun _ => "")
     [MystemRecord.mk "42" none, MystemRecord.mk "qwzx" (some [])]
     ["a", "b"] 1 0
     [ConlluToken.mk "42" (MorphologicalTokenDTO.mk "42" "NUM" "") 1,
      ConlluToken.mk "qwzx" (MorphologicalTokenDTO.mk "qwzx" "X" "") 2] 2
     (by decide)
     (ConlluToken.mk "42" (MorphologicalTokenDTO.mk "42" "NUM" "") 1)
     (by decide),
   process_words_policy (fun _ => "") (fun _ => "")
     [MystemRecord.mk "42" none, MystemRecord.mk "qwzx" (some [])]
     ["a", "b"] 1 0
     [ConlluToken.mk "42" (MorphologicalTokenDTO.mk "42" "NUM" "") 1,
      ConlluToken.mk "qwzx" (MorphologicalTokenDTO.mk "qwzx" "X" "") 2] 2
     (by decide)
     (ConlluToken.mk "qwzx" (MorphologicalTokenDTO.mk "qwzx" "X" "") 2)
     (by decide)⟩

/-- Claim C2, counterexample: with the record stream
`[" ", "-", "мир"]` — two consecutive non-alphanumeric records at the
cursor before the word's alphanumeric record — the engine advances past only
ONE of them (the guard is an `if`, not a `while`) and pairs the word with
the still non-alphanumeric record `"-"`, not with the next alphanumeric
record `"мир"`. -/
theorem process_words_single_skip_counterexample :
    processWords (fun _ => "") (fun _ => "")
      [MystemRecord.mk " " none, MystemRecord.mk "-" none,
       MystemRecord.mk "мир" (some [MystemAnalysis.mk "мир" "S"])]
      ["мир"] 1 0 =
      some ([ConlluToken.mk "-" (MorphologicalTokenDTO.mk "-" "X" "") 1], 2) ∧
    pyIsAlnum " " = false ∧
    pyIsAlnum "-" = false ∧
    pyIsAlnum "мир" = true := by
  refine ⟨by decide, by decide, by decide, by decide⟩

/-- Claim C2 (amended): before pairing a word with an analyzer record, the
engine skips AT MOST ONE non-alphanumeric record at the cursor (the guard is
a single conditional, not a loop): when the record at the cursor is not
alphanumeric, the cursor advances by exactly one without consuming a word
slot, and the word is paired with whatever record then sits at the cursor —
alphanumeric or not. -/
theorem process_words_skips_at_most_one (cp ct : String → String)
    (result : List MystemRecord) (w : String) (ws : List String) (i c : Nat)
    (r0 ac : MystemRecord)
    (h0 : result.get? c = some r0) (hna : pyIsAlnum r0.text = false)
    (h1 : result.get? (c + 1) = some ac) :
    processWords cp ct result (w :: ws) i c =
      (processWords cp ct result ws (i + 1) (c + 2)).map
        (fun rest =>
          (ConlluToken.mk ac.text (specResolvePolicy cp ct ac) i :: rest.1,
           rest.2)) := by
  rw [processWords_cons, h0, Option.some_bind]
  simp only [hna, Bool.false_eq_true, if_false]
  rw [h1, Option.some_bind]
  cases h2 : processWords cp ct result ws (i + 1) (c + 1 + 1) with
  | none => simp [h2]
  | some pr => simp [h2]

/-- Witness for claim C2 (amended): one non-alphanumeric record `" "` at
cursor 0 is skipped and the word is paired with the record at cursor 1 —
which is itself the non-alphanumeric `"-"`. -/
theorem process_words_skips_at_most_one_witness :
    processWords (fun _ => "") (fun _ => "")
      [MystemRecord.mk " " none, MystemRecord.mk "-" none,
       MystemRecord.mk "мир" (some [MystemAnalysis.mk "мир" "S"])]
      ["мир"] 1 0 =
      (processWords (fun _ => "") (fun _ => "")
        [MystemRecord.mk " " none, MystemRecord.mk "-" none,
         MystemRecord.mk "мир" (some [MystemAnalysis.mk "мир" "S"])]
        [] 2 2).map
        (fun rest =>
          (ConlluToken.mk "-"
            (specResolvePolicy (fun _ => "") (fun _ => "") (MystemRecord.mk "-" none)) 1
            :: rest.1,
           rest.2)) :=
  process_words_skips_at_most_one (fun _ => "") (fun _ => "")
    [MystemRecord.mk " " none, MystemRecord.mk "-" none,
     MystemRecord.mk "мир" (some [MystemAnalysis.mk "мир" "S"])]
    "мир" [] 1 0 (MystemRecord.mk " " none) (MystemRecord.mk "-" none)
    rfl (by decide) rfl

/-- Claim C10: the surface text stored in each produced token is the
analyzer record's text at the cursor, never the independently tokenized word
string: the word loop's output is entirely independent of the word strings
(only their count matters), and every produced token's text is the text of
some record of the analyzer stream. -/
theorem process_words_text_from_records (cp ct : String → String)
    (result : List MystemRecord) :
    (∀ (ws ws' : List String) (i c : Nat), ws.length = ws'.length →
      processWords cp ct result ws i c = processWords cp ct result ws' i c) ∧
    (∀ (ws : List String) (i c : Nat) (toks : List ConlluToken) (cfin : Nat),
      processWords cp ct result ws i c = some (toks, cfin) →
      ∀ t ∈ toks, ∃ j ac, result.get? j = some ac ∧ t.text = ac.text) := by
  constructor
  · intro ws
    induction ws with
    | nil =>
      intro ws' i c hlen
      rw [List.length_nil] at hlen
      rw [List.eq_nil_of_length_eq_zero hlen.symm]
    | cons w ws ih =>
      intro ws' i c hlen
      cases ws' with
      | nil => cases hlen
      | cons w' ws'' =>
        simp only [List.length_cons, Nat.add_right_cancel_iff] at hlen
        rw [processWords_cons, processWords_cons]
        cases h0 : result.get? c with
        | none => rfl
        | some r0 =>
          simp only [Option.some_bind]
          cases h1 : result.get? (if pyIsAlnum r0.text then c else c + 1) with
          | none => rfl
          | some ac =>
            simp only [Option.some_bind]
            rw [ih ws'' (i + 1) ((if pyIsAlnum r0.text then c else c + 1) + 1) hlen]
  · intro ws
    induction ws with
    | nil =>
      intro i c toks cfin h t ht
      rw [processWords_nil] at h
      cases h
      cases ht
    | cons w ws ih =>
      intro i c toks cfin h t ht
      rw [processWords_cons] at h
      cases h0 : result.get? c with
      | none => rw [h0] at h; cases h
      | some r0 =>
        rw [h0] at h
        simp only [Option.some_bind] at h
        set c1 := if pyIsAlnum r0.text then c else c + 1 with hc1
        cases h1 : result.get? c1 with
        | none => rw [h1] at h; cases h
        | some ac =>
          rw [h1] at h
          simp only [Option.some_bind] at h
          cases h2 : processWords cp ct result ws (i + 1) (c1 + 1) with
          | none => rw [h2] at h; cases h
          | some pr =>
            rw [h2] at h
            simp only [Option.some_bind, Option.some_inj] at h
            injection h with h3 h4
            subst h3
            rcases List.mem_cons.mp ht with rfl | htail
            · exact ⟨c1, ac, h1, rfl⟩
            · exact ih (i + 1) (c1 + 1) pr.1 pr.2 (by rw [h2]) t htail

/-- Witness for claim C10: two different word strings, same record stream —
identical output; the produced token's text `"мир"` is the record's text,
not the tokenized word `"qwzx"`. -/
theorem process_words_text_from_records_witness :
    processWords (fun _ => "") (fun _ => "")
      [MystemRecord.mk "мир" (some [MystemAnalysis.mk "мир" "S"])]
      ["qwzx"] 1 0 =
    processWords (fun _ => "") (fun _ => "")
      [MystemRecord.mk "мир" (some [MystemAnalysis.mk "мир" "S"])]
      ["зима"] 1 0 ∧
    (∃ j ac,
      [MystemRecord.mk "мир" (some [MystemAnalysis.mk "мир" "S"])].get? j
        = some ac ∧
      (ConlluToken.mk "мир" (MorphologicalTokenDTO.mk "мир" "" "") 1).text
        = ac.text) :=
  ⟨(process_words_text_from_records (fun _ => "") (fun _ => "")
      [MystemRecord.mk "мир" (some [MystemAnalysis.mk "мир" "S"])]).1
      ["qwzx"] ["зима"] 1 0 rfl,
   (process_words_text_from_records (fun _ => "") (fun _ => "")
      [MystemRecord.mk "мир" (some [MystemAnalysis.mk "мир" "S"])]).2
      ["qwzx"] 1 0
      [ConlluToken.mk "мир" (MorphologicalTokenDTO.mk "мир" "" "") 1] 1
      (by decide)
      (ConlluToken.mk "мир" (MorphologicalTokenDTO.mk "мир" "" "") 1)
      (by decide)⟩

theorem processSentences_nil (cp ct : String → String)
    (result : List MystemRecord) (ind c : Nat) :
    processSentences cp ct result [] ind c = some ([], c) := rfl

theorem processSentences_cons (cp ct : String → String)
    (result : List MystemRecord) (sentence : String) (rest : List String)
    (ind c : Nat) :
    processSentences cp ct result (sentence :: rest) ind c =
      (processWords cp ct result (findWords sentence) 1 c).bind (fun wr =>
        (processSentences cp ct result rest (ind + 1) wr.2).bind (fun sr =>
          some (ConlluSentence.mk ind sentence
                  (wr.1 ++ [specTerminalToken (findWords sentence).length])
                  :: sr.1,
                sr.2))) := rfl

theorem process_words_positions (cp ct : String → String)
    (result : List MystemRecord) :
    ∀ (ws : List String) (i c : Nat) (toks : List ConlluToken) (cfin : Nat),
      processWords cp ct result ws i c = some (toks, cfin) →
      toks.map ConlluToken.position = List.range' i ws.length := by
  intro ws
  induction ws with
  | nil =>
    intro i c toks cfin h
    rw [processWords_nil] at h
    cases h
    rfl
  | cons w ws ih =>
    intro i c toks cfin h
    rw [processWords_cons] at h
    cases h0 : result.get? c with
    | none => rw [h0] at h; cases h
    | some r0 =>
      rw [h0] at h
      simp only [Option.some_bind] at h
      set c1 := if pyIsAlnum r0.text then c else c + 1 with hc1
      cases h1 : result.get? c1 with
      | none => rw [h1] at h; cases h
      | some ac =>
        rw [h1] at h
        simp only [Option.some_bind] at h
        cases h2 : processWords cp ct result ws (i + 1) (c1 + 1) with
        | none => rw [h2] at h; cases h
        | some pr =>
          rw [h2] at h
          simp only [Option.some_bind, Option.some_inj] at h
          injection h with h3 h4
          subst h3
          simp only [List.map_cons, List.length_cons, List.range'_succ]
          rw [ih (i + 1) (c1 + 1) pr.1 pr.2 (by rw [h2])]

theorem process_sentences_shape (cp ct : String → String)
    (result : List MystemRecord) :
    ∀ (sl : List String) (ind c : Nat) (sents : List ConlluSentence) (cfin : Nat),
      processSentences cp ct result sl ind c = some (sents, cfin) →
      ∀ s ∈ sents, ∃ toks c0 cf,
        processWords cp ct result (findWords s.text) 1 c0 = some (toks, cf) ∧
        s.tokens = toks ++ [specTerminalToken (findWords s.text).length] := by
  intro sl
  induction sl with
  | nil =>
    intro ind c sents cfin h s hs
    rw [processSentences_nil] at h
    cases h
    cases hs
  | cons sentence rest ih =>
    intro ind c sents cfin h s hs
    rw [processSentences_cons] at h
    cases h0 : processWords cp ct result (findWords sentence) 1 c with
    | none => rw [h0] at h; cases h
    | some wr =>
      rw [h0] at h
      simp only [Option.some_bind] at h
      cases h1 : processSentences cp ct result rest (ind + 1) wr.2 with
      | none => rw [h1] at h; cases h
      | some sr =>
        rw [h1] at h
        simp only [Option.some_bind, Option.some_inj] at h
        injection h with h3 h4
        subst h3
        rcases List.mem_cons.mp hs with rfl | htail
        · exact ⟨wr.1, c, wr.2, by rw [h0], rfl⟩
        · exact ih (ind + 1) wr.2 sr.1 sr.2 (by rw [h1]) s htail

/-- Claim C6: in every sentence produced by `_process`, the token positions
form the contiguous run `1..n+1`, where `n` is the number of `\w+` word runs
of that sentence's raw text, and the token at position `n+1` is the
synthetic terminal token — surface `"."`, lemma `"."`, part-of-speech
`PUNCT` — appended after the last real word. -/
theorem process_positions_contiguous (cp ct : String → String)
    (result : List MystemRecord) (sentences : List String)
    (sents : List ConlluSentence)
    (h : MorphologicalAnalysisPipeline.process cp ct result sentences
           = some sents) :
    ∀ s ∈ sents,
      s.tokens.map ConlluToken.position
        = List.range' 1 ((findWords s.text).length + 1) ∧
      s.tokens.getLast?
        = some (specTerminalToken (findWords s.text).length) := by
  intro s hs
  unfold MorphologicalAnalysisPipeline.process at h
  cases h0 : processSentences cp ct result sentences 1 0 with
  | none => rw [h0] at h; cases h
  | some pr =>
    rw [h0] at h
    simp only [Option.map_some', Option.some_inj] at h
    subst h
    obtain ⟨toks, c0, cf, hw, htoks⟩ :=
      process_sentences_shape cp ct result sentences 1 0 pr.1 pr.2
        (by rw [h0]) s hs
    constructor
    · rw [htoks, List.map_append]
      rw [process_words_positions cp ct result (findWords s.text) 1 c0 toks cf hw]
      show List.range' 1 (findWords s.text).length ++
          [(findWords s.text).length + 1] = _
      have : ((findWords s.text).length + 1 : Nat)
          = 1 + (findWords s.text).length := Nat.add_comm _ _
      rw [this, ← @List.range'_one (1 + (findWords s.text).length) 1,
        List.range'_append_1, Nat.add_comm 1 (findWords s.text).length]
    · rw [htoks, List.getLast?_concat]

/-- Witness for claim C6: a one-sentence run with two words; positions are
`[1, 2, 3]` and the last token is the synthetic terminal `"."`/PUNCT at
position 3. -/
theorem process_positions_contiguous_witness :
    MorphologicalAnalysisPipeline.process (fun _ => "NOUN") (fun _ => "")
      [MystemRecord.mk "Привет" (some [MystemAnalysis.mk "привет" "S"]),
       MystemRecord.mk " " none,
       MystemRecord.mk "мир" (some [MystemAnalysis.mk "мир" "S"])]
      ["Привет, мир!"] =
      some [ConlluSentence.mk 1 "Привет, мир!"
        [ConlluToken.mk "Привет" (MorphologicalTokenDTO.mk "привет" "NOUN" "") 1,
         ConlluToken.mk "мир" (MorphologicalTokenDTO.mk "мир" "NOUN" "") 2,
         ConlluToken.mk "." (MorphologicalTokenDTO.mk "." "PUNCT" "") 3]] ∧
    ((ConlluSentence.mk 1 "Привет, мир!"
        [ConlluToken.mk "Привет" (MorphologicalTokenDTO.mk "привет" "NOUN" "") 1,
         ConlluToken.mk "мир" (MorphologicalTokenDTO.mk "мир" "NOUN" "") 2,
         ConlluToken.mk "." (MorphologicalTokenDTO.mk "." "PUNCT" "") 3]).tokens.map
        ConlluToken.position
      = List.range' 1 ((findWords "Привет, мир!").length + 1) ∧
     (ConlluSentence.mk 1 "Привет, мир!"
        [ConlluToken.mk "Привет" (MorphologicalTokenDTO.mk "привет" "NOUN" "") 1,
         ConlluToken.mk "мир" (MorphologicalTokenDTO.mk "мир" "NOUN" "") 2,
         ConlluToken.mk "." (MorphologicalTokenDTO.mk "." "PUNCT" "") 3]).tokens.getLast?
      = some (specTerminalToken (findWords "Привет, мир!").length)) :=
  ⟨by decide,
   process_positions_contiguous (fun _ => "NOUN") (fun _ => "")
     [MystemRecord.mk "Привет" (some [MystemAnalysis.mk "привет" "S"]),
      MystemRecord.mk " " none,
      MystemRecord.mk "мир" (some [MystemAnalysis.mk "мир" "S"])]
     ["Привет, мир!"]
     [ConlluSentence.mk 1 "Привет, мир!"
       [ConlluToken.mk "Привет" (MorphologicalTokenDTO.mk "привет" "NOUN" "") 1,
        ConlluToken.mk "мир" (MorphologicalTokenDTO.mk "мир" "NOUN" "") 2,
        ConlluToken.mk "." (MorphologicalTokenDTO.mk "." "PUNCT" "") 3]]
     (by decide)
     (ConlluSentence.mk 1 "Привет, мир!"
       [ConlluToken.mk "Привет" (MorphologicalTokenDTO.mk "привет" "NOUN" "") 1,
        ConlluToken.mk "мир" (MorphologicalTokenDTO.mk "мир" "NOUN" "") 2,
        ConlluToken.mk "." (MorphologicalTokenDTO.mk "." "PUNCT" "") 3])
     (by decide)⟩

theorem cursorTrace_nil (result : List MystemRecord) (c : Nat) :
    cursorTrace result [] c = some ([], c) := rfl

theorem cursorTrace_cons (result : List MystemRecord) (w : String)
    (ws : List String) (c : Nat) :
    cursorTrace result (w :: ws) c =
      (result.get? c).bind (fun atCursor =>
        let cursor := if pyIsAlnum atCursor.text then c else c + 1
        (result.get? cursor).bind (fun _ =>
          (cursorTrace result ws (cursor + 1)).bind (fun rest =>
            some (cursor :: rest.1, rest.2)))) := rfl

theorem cursorTrace_bounds (result : List MystemRecord) :
    ∀ (ws : List String) (c : Nat) (tr : List Nat) (cfin : Nat),
      cursorTrace result ws c = some (tr, cfin) →
      List.Chain' (· < ·) tr ∧ (∀ j ∈ tr, c ≤ j ∧ j < cfin) ∧ c ≤ cfin := by
  intro ws
  induction ws with
  | nil =>
    intro c tr cfin h
    rw [cursorTrace_nil] at h
    cases h
    exact ⟨List.chain'_nil, fun j hj => absurd hj (List.not_mem_nil j), Nat.le_refl c⟩
  | cons w ws ih =>
    intro c tr cfin h
    rw [cursorTrace_cons] at h
    cases h0 : result.get? c with
    | none => rw [h0] at h; cases h
    | some r0 =>
      rw [h0] at h
      simp only [Option.some_bind] at h
      set c1 := if pyIsAlnum r0.text then c else c + 1 with hc1
      have hcc1 : c ≤ c1 := by
        rw [hc1]
        split
        · exact Nat.le_refl c
        · exact Nat.le_succ c
      cases h1 : result.get? c1 with
      | none => rw [h1] at h; cases h
      | some ac =>
        rw [h1] at h
        simp only [Option.some_bind] at h
        cases h2 : cursorTrace result ws (c1 + 1) with
        | none => rw [h2] at h; cases h
        | some pr =>
          rw [h2] at h
          simp only [Option.some_bind, Option.some_inj] at h
          injection h with h3 h4
          subst h3
          subst h4
          obtain ⟨ch', hb', hle'⟩ := ih (c1 + 1) pr.1 pr.2 (by rw [h2])
          refine ⟨?_, ?_, ?_⟩
          · rw [List.chain'_cons']
            exact ⟨fun y hy => (hb' y (List.mem_of_mem_head? hy)).1, ch'⟩
          · intro j hj
            rcases List.mem_cons.mp hj with rfl | hj'
            · exact ⟨hcc1, Nat.lt_of_succ_le hle'⟩
            · obtain ⟨ha, hbnd⟩ := hb' j hj'
              exact ⟨Nat.le_trans hcc1 (Nat.le_trans (Nat.le_succ c1) ha), hbnd⟩
          · exact Nat.le_trans hcc1 (Nat.le_trans (Nat.le_succ c1) hle')

theorem processWords_cursorTrace (cp ct : String → String)
    (result : List MystemRecord) :
    ∀ (ws : List String) (i c : Nat) (toks : List ConlluToken) (cfin : Nat),
      processWords cp ct result ws i c = some (toks, cfin) →
      ∃ tr, cursorTrace result ws c = some (tr, cfin) := by
  intro ws
  induction ws with
  | nil =>
    intro i c toks cfin h
    rw [processWords_nil] at h
    cases h
    exact ⟨[], rfl⟩
  | cons w ws ih =>
    intro i c toks cfin h
    rw [processWords_cons] at h
    rw [cursorTrace_cons]
    cases h0 : result.get? c with
    | none => rw [h0] at h; cases h
    | some r0 =>
      rw [h0] at h
      simp only [Option.some_bind] at h ⊢
      set c1 := if pyIsAlnum r0.text then c else c + 1 with hc1
      cases h1 : result.get? c1 with
      | none => rw [h1] at h; cases h
      | some ac =>
        rw [h1] at h
        simp only [Option.some_bind] at h ⊢
        cases h2 : processWords cp ct result ws (i + 1) (c1 + 1) with
        | none => rw [h2] at h; cases h
        | some pr =>
          rw [h2] at h
          simp only [Option.some_bind, Option.some_inj] at h
          injection h with h3 h4
          obtain ⟨tr', htr'⟩ := ih (i + 1) (c1 + 1) pr.1 pr.2 (by rw [h2])
          rw [htr']
          exact ⟨c1 :: tr', by rw [Option.some_bind, h4]⟩

theorem sentencesTrace_nil (result : List MystemRecord) (c : Nat) :
    sentencesTrace result [] c = some ([], c) := rfl

theorem sentencesTrace_cons (result : List MystemRecord) (sentence : String)
    (rest : List String) (c : Nat) :
    sentencesTrace result (sentence :: rest) c =
      (cursorTrace result (findWords sentence) c).bind (fun tr =>
        (sentencesTrace result rest tr.2).bind (fun trs =>
          some (tr.1 ++ trs.1, trs.2))) := rfl

theorem sentencesTrace_bounds (result : List MystemRecord) :
    ∀ (sl : List String) (c : Nat) (tr : List Nat) (cfin : Nat),
      sentencesTrace result sl c = some (tr, cfin) →
      List.Chain' (· < ·) tr ∧ (∀ j ∈ tr, c ≤ j ∧ j < cfin) ∧ c ≤ cfin := by
  intro sl
  induction sl with
  | nil =>
    intro c tr cfin h
    rw [sentencesTrace_nil] at h
    cases h
    exact ⟨List.chain'_nil, fun j hj => absurd hj (List.not_mem_nil j), Nat.le_refl c⟩
  | cons sentence rest ih =>
    intro c tr cfin h
    rw [sentencesTrace_cons] at h
    cases h0 : cursorTrace result (findWords sentence) c with
    | none => rw [h0] at h; cases h
    | some t1 =>
      rw [h0] at h
      simp only [Option.some_bind] at h
      cases h1 : sentencesTrace result rest t1.2 with
      | none => rw [h1] at h; cases h
      | some t2 =>
        rw [h1] at h
        simp only [Option.some_bind, Option.some_inj] at h
        injection h with h3 h4
        subst h3
        subst h4
        obtain ⟨ch1, hb1, hle1⟩ :=
          cursorTrace_bounds result (findWords sentence) c t1.1 t1.2 (by rw [h0])
        obtain ⟨ch2, hb2, hle2⟩ := ih t1.2 t2.1 t2.2 (by rw [h1])
        refine ⟨?_, ?_, Nat.le_trans hle1 hle2⟩
        · rw [List.chain'_append]
          refine ⟨ch1, ch2, fun x hx y hy => ?_⟩
          have hx1 := (hb1 x (List.mem_of_mem_getLast? hx)).2
          have hy1 := (hb2 y (List.mem_of_mem_head? hy)).1
          exact Nat.lt_of_lt_of_le hx1 hy1
        · intro j hj
          rcases List.mem_append.mp hj with hj1 | hj2
          · obtain ⟨ha, hbnd⟩ := hb1 j hj1
            exact ⟨ha, Nat.lt_of_lt_of_le hbnd hle2⟩
          · obtain ⟨ha, hbnd⟩ := hb2 j hj2
            exact ⟨Nat.le_trans hle1 ha, hbnd⟩

theorem processSentences_sentencesTrace (cp ct : String → String)
    (result : List MystemRecord) :
    ∀ (sl : List String) (ind c : Nat) (sents : List ConlluSentence) (cfin : Nat),
      processSentences cp ct result sl ind c = some (sents, cfin) →
      ∃ tr, sentencesTrace result sl c = some (tr, cfin) := by
  intro sl
  induction sl with
  | nil =>
    intro ind c sents cfin h
    rw [processSentences_nil] at h
    cases h
    exact ⟨[], rfl⟩
  | cons sentence rest ih =>
    intro ind c sents cfin h
    rw [processSentences_cons] at h
    rw [sentencesTrace_cons]
    cases h0 : processWords cp ct result (findWords sentence) 1 c with
    | none => rw [h0] at h; cases h
    | some wr =>
      rw [h0] at h
      simp only [Option.some_bind] at h
      cases h1 : processSentences cp ct result rest (ind + 1) wr.2 with
      | none => rw [h1] at h; cases h
      | some sr =>
        rw [h1] at h
        simp only [Option.some_bind, Option.some_inj] at h
        injection h with h3 h4
        obtain ⟨tr1, htr1⟩ :=
          processWords_cursorTrace cp ct result (findWords sentence) 1 c wr.1 wr.2
            (by rw [h0])
        obtain ⟨tr2, htr2⟩ := ih (ind + 1) wr.2 sr.1 sr.2 (by rw [h1])
        rw [htr1, Option.some_bind, htr2, Option.some_bind]
        exact ⟨tr1 ++ tr2, by rw [h4]⟩

/-- Claim C8: over a whole `_process` run the analyzer-stream cursor is
monotonically non-decreasing, shared across sentence iterations and never
reset at a sentence boundary, and never revisits a record already consumed
as a word's analysis: the sequence of consumed record indices, concatenated
across all sentences in run order, is strictly increasing, and the final
cursor lies strictly beyond every consumed index. -/
theorem process_cursor_monotone (cp ct : String → String)
    (result : List MystemRecord) (sentences : List String)
    (sents : List ConlluSentence)
    (h : MorphologicalAnalysisPipeline.process cp ct result sentences
           = some sents) :
    ∃ tr cfin, sentencesTrace result sentences 0 = some (tr, cfin) ∧
      List.Chain' (· < ·) tr ∧ (∀ j ∈ tr, j < cfin) := by
  unfold MorphologicalAnalysisPipeline.process at h
  cases h0 : processSentences cp ct result sentences 1 0 with
  | none => rw [h0] at h; cases h
  | some pr =>
    obtain ⟨tr, htr⟩ :=
      processSentences_sentencesTrace cp ct result sentences 1 0 pr.1 pr.2
        (by rw [h0])
    obtain ⟨ch, hb, _⟩ :=
      sentencesTrace_bounds result sentences 0 tr pr.2 htr
    exact ⟨tr, pr.2, htr, ch, fun j hj => (hb j hj).2⟩

/-- Witness for claim C8: a two-sentence run; the consumed indices across the
sentence boundary are `[0, 2, 4]` (strictly increasing, the second sentence
continuing from the first sentence's final cursor 3), final cursor 5. -/
theorem process_cursor_monotone_witness :
    ∃ tr cfin,
      sentencesTrace
        [MystemRecord.mk "Привет" (some [MystemAnalysis.mk "привет" "S"]),
         MystemRecord.mk " " none,
         MystemRecord.mk "мир" (some [MystemAnalysis.mk "мир" "S"]),
         MystemRecord.mk " " none,
         MystemRecord.mk "42" none]
        ["Привет мир", "42"] 0 = some (tr, cfin) ∧
      List.Chain' (· < ·) tr ∧ (∀ j ∈ tr, j < cfin) :=
  process_cursor_monotone (fun _ => "NOUN") (fun _ => "")
    [MystemRecord.mk "Привет" (some [MystemAnalysis.mk "привет" "S"]),
     MystemRecord.mk " " none,
     MystemRecord.mk "мир" (some [MystemAnalysis.mk "мир" "S"]),
     MystemRecord.mk " " none,
     MystemRecord.mk "42" none]
    ["Привет мир", "42"]
    [ConlluSentence.mk 1 "Привет мир"
      [ConlluToken.mk "Привет" (MorphologicalTokenDTO.mk "привет" "NOUN" "") 1,
       ConlluToken.mk "мир" (MorphologicalTokenDTO.mk "мир" "NOUN" "") 2,
       ConlluToken.mk "." (MorphologicalTokenDTO.mk "." "PUNCT" "") 3],
     ConlluSentence.mk 2 "42"
      [ConlluToken.mk "42" (MorphologicalTokenDTO.mk "42" "NUM" "") 1,
       ConlluToken.mk "." (MorphologicalTokenDTO.mk "." "PUNCT" "") 2]]
    (by decide)

theorem pyDictAssign_of_fresh (d : List (String × String)) (k v : String)
    (h : ∀ p ∈ d, p.1 ≠ k) : pyDictAssign d k v = d ++ [(k, v)] := by
  unfold pyDictAssign
  rw [if_neg]
  intro hany
  rw [List.any_eq_true] at hany
  obtain ⟨p, hp, hpk⟩ := hany
  exact h p hp (eq_of_beq hpk)

theorem ocFold_keys (m : String → String → Option String) :
    ∀ (lst : List (String × Option String)) (acc res : List (String × String)),
      List.foldlM (ocStep m) acc lst = some res →
      (lst.map Prod.fst).Nodup →
      (∀ k ∈ lst.map Prod.fst, ∀ p ∈ acc, p.1 ≠ k) →
      res.map Prod.fst
        = acc.map Prod.fst
          ++ lst.filterMap (fun kv => kv.2.map (fun _ => kv.1)) := by
  intro lst
  induction lst with
  | nil =>
    intro acc res h _ _
    rw [List.foldlM_nil] at h
    cases h
    simp
  | cons kv lst ih =>
    intro acc res h hnd hfr
    rw [List.foldlM_cons] at h
    cases hkv : kv.2 with
    | none =>
      have hstep : ocStep m acc kv = some acc := by
        simp [ocStep, hkv]
      rw [hstep] at h
      simp only [Option.bind_eq_bind, Option.some_bind] at h
      simp only [List.map_cons, List.nodup_cons] at hnd
      have hres := ih acc res h hnd.2
        (fun k hk p hp => hfr k (List.mem_cons_of_mem _ hk) p hp)
      rw [hres]
      simp [hkv]
    | some v =>
      cases hm : m kv.1 v with
      | none =>
        have hstep : ocStep m acc kv = none := by
          simp [ocStep, hkv, hm]
        rw [hstep] at h
        cases h
      | some u =>
        have hfresh : ∀ p ∈ acc, p.1 ≠ kv.1 :=
          hfr kv.1 (List.mem_cons_self _ _)
        have hstep : ocStep m acc kv = some (acc ++ [(kv.1, u)]) := by
          simp [ocStep, hkv, hm, pyDictAssign_of_fresh acc kv.1 u hfresh]
        rw [hstep] at h
        simp only [Option.bind_eq_bind, Option.some_bind] at h
        simp only [List.map_cons, List.nodup_cons] at hnd
        have hfr' : ∀ k ∈ lst.map Prod.fst, ∀ p ∈ acc ++ [(kv.1, u)], p.1 ≠ k := by
          intro k hk p hp
          rcases List.mem_append.mp hp with hpa | hpb
          · exact hfr k (List.mem_cons_of_mem _ hk) p hpa
          · rcases List.mem_singleton.mp hpb with rfl
            intro hkk
            exact hnd.1 (by rw [← hkk] at hk; exact hk)
        have hres := ih (acc ++ [(kv.1, u)]) res h hnd.2 hfr'
        rw [hres]
        simp [hkv]

/-- Claim C3, counterexample: `OpenCorporaTagConverter` does not sort.  With
a mapping carrying Gender and Case entries and a tag object with gender and
case set, it emits `"Gender=Masc|Case=Nom"` — Gender first, although
`"Case" < "Gender"` in category-name order, so the categories are not in
sorted order. -/
theorem opencorpora_not_sorted_counterexample :
    OpenCorporaTagConverter.convert_morphological_tags
      (fun category raw =>
        if category == "Gender" && raw == "masc" then some "Masc"
        else if category == "Case" && raw == "nomn" then some "Nom"
        else none)
      (OpencorporaTag.mk none (some "masc") none none (some "nomn"))
      = some "Gender=Masc|Case=Nom" ∧
    ("Gender=Masc|Case=Nom" : String) ≠ "Case=Nom|Gender=Masc" ∧
    caseCategory < genderCategory := by
  refine ⟨by decide, by decide, ?_⟩
  rw [String.lt_iff_toList_lt]
  decide

/-- Claim C3 (amended): both converters are pure (hence deterministic)
functions emitting `Category=Value` pairs joined by `|`, but only
`MystemTagConverter` emits the pairs sorted by category name;
`OpenCorporaTagConverter` emits them in the fixed insertion order gender,
number, animacy, case of its field list — not sorted by category name. -/
theorem convert_tags_order (m : String → String → Option String) :
    (∀ tags : String,
      MystemTagConverter.convert_morphological_tags m tags
        = String.intercalate "|"
            ((sortedPairs (MystemTagConverter.ud_tags m tags)).map formatPair) ∧
      List.Sorted keyLe (sortedPairs (MystemTagConverter.ud_tags m tags))) ∧
    (∀ (tags : OpencorporaTag) (ud : List (String × String)),
      OpenCorporaTagConverter.ud_tags m tags = some ud →
      OpenCorporaTagConverter.convert_morphological_tags m tags
        = some (String.intercalate "|" (ud.map formatPair)) ∧
      ud.map Prod.fst
        = [(genderCategory, tags.gender), (numberCategory, tags.number),
           (animacyCategory, tags.animacy), (caseCategory, tags.case_)].filterMap
            (fun kv => kv.2.map (fun _ => kv.1))) := by
  constructor
  · intro tags
    exact ⟨rfl, List.sorted_insertionSort keyLe _⟩
  · intro tags ud h
    constructor
    · unfold OpenCorporaTagConverter.convert_morphological_tags
      rw [h]
      rfl
    · have hnodup : (([(genderCategory, tags.gender), (numberCategory, tags.number),
          (animacyCategory, tags.animacy), (caseCategory, tags.case_)]
            : List (String × Option String)).map Prod.fst).Nodup := by
        simp only [List.map_cons, List.map_nil]
        decide
      have hkeys := ocFold_keys m
        [(genderCategory, tags.gender), (numberCategory, tags.number),
         (animacyCategory, tags.animacy), (caseCategory, tags.case_)]
        [] ud h hnodup (fun k _ p hp => absurd hp (List.not_mem_nil p))
      simpa using hkeys

/-- Witness for claim C3 (amended): the concrete OpenCorpora run of the
counterexample mapping and tag object, with its emitted pair list
`[(Gender, Masc), (Case, Nom)]` — the present fields in insertion order. -/
theorem convert_tags_order_witness :
    OpenCorporaTagConverter.convert_morphological_tags
      (fun category raw =>
        if category == "Gender" && raw == "masc" then some "Masc"
        else if category == "Case" && raw == "nomn" then some "Nom"
        else none)
      (OpencorporaTag.mk none (some "masc") none none (some "nomn"))
      = some (String.intercalate "|"
          ([("Gender", "Masc"), ("Case", "Nom")].map formatPair)) ∧
    ([("Gender", "Masc"), ("Case", "Nom")] : List (String × String)).map Prod.fst
      = [(genderCategory, (OpencorporaTag.mk none (some "masc") none none
            (some "nomn")).gender),
         (numberCategory, (OpencorporaTag.mk none (some "masc") none none
            (some "nomn")).number),
         (animacyCategory, (OpencorporaTag.mk none (some "masc") none none
            (some "nomn")).animacy),
         (caseCategory, (OpencorporaTag.mk none (some "masc") none none
            (some "nomn")).case_)].filterMap
          (fun kv => kv.2.map (fun _ => kv.1)) :=
  (convert_tags_order
    (fun category raw =>
      if category == "Gender" && raw == "masc" then some "Masc"
      else if category == "Case" && raw == "nomn" then some "Nom"
      else none)).2
    (OpencorporaTag.mk none (some "masc") none none (some "nomn"))
    [("Gender", "Masc"), ("Case", "Nom")]
    (by decide)
